import Mathlib

/-!
Verification of the DAAN-FERN IRI (International Roughness Index) pipeline
against its natural-language specification.

The repository splits into a React frontend (under `client/`) and a FastAPI
backend.  The frontend sources are available and are embedded directly
(store actions, API service wrappers, quality classification).  The backend
numeric pipeline (Validator, Resampler, Distance Integrator, Quarter-Car
Filter, Segmenter, Result Cache) is declared by the spec and by the server
README but its Python sources are not present; those components are
modelled from the spec, with doc comments marking each such definition.

Real numbers of the implementation are embedded as rationals `ℚ`; machine
floats are not modelled (the claims under study are order/algebraic facts
that hold over any linearly ordered field).
-/

namespace DAAN

/-! ## Data model (spec §3) -/

/-- A road segment as produced by the Segmenter and consumed by the
frontend: `{segment_id, distance_start, distance_end, iri_value,
mean_speed}` (GPS endpoints omitted; they play no role in the claims). -/
structure Segment where
  segment_id : ℕ
  distance_start : ℚ
  distance_end : ℚ
  iri_value : ℚ
  mean_speed : ℚ
deriving DecidableEq, Repr

/-- A distance-tagged, filtered sample: the Distance Integrator's output
joined with the Quarter-Car Filter's scalar output for that sample. -/
structure DSample where
  distance_m : ℚ
  filtered : ℚ
  speed : ℚ
deriving DecidableEq, Repr

/-! ## Segmenter (spec §4.5), modelled from the spec -/

/-- Modelled from the spec: calibration scale turning the per-segment mean
absolute quarter-car output into m/km.  The backend Segmenter source is
absent from the repository snapshot; the spec fixes only that the scale is
a positive calibration constant. -/
def iriScale : ℚ := 1000

/-- Total trip distance: the last sample's cumulative `distance_m`
(distances are monotonically non-decreasing, so the last one is the
total). -/
def totalDistance (samples : List DSample) : ℚ :=
  match samples.getLast? with
  | none => 0
  | some s => s.distance_m

/-- Modelled from the spec: number of segments for a trip of total
distance `D` with segment length `L` — one per multiple of `L` crossed,
the final partial segment retained. -/
def numSegments (L D : ℚ) : ℕ := ⌈D / L⌉₊

/-- Start of the `i`-th segment: the `i`-th multiple of the segment
length. -/
def segStart (L : ℚ) (i : ℕ) : ℚ := (i : ℚ) * L

/-- End of the `i`-th segment: the next multiple of the segment length,
capped at the total distance (the last segment may be shorter). -/
def segEnd (L D : ℚ) (i : ℕ) : ℚ := min (((i : ℚ) + 1) * L) D

/-- Mean absolute value of a list of rationals (0 for the empty list,
since `x / 0 = 0` in `ℚ`). -/
def meanAbs (xs : List ℚ) : ℚ := (xs.map (fun x => |x|)).sum / (xs.length : ℚ)

/-- Modelled from the spec: per-segment IRI — the mean absolute slope
convention of §4.5, `iri_value` = calibration scale times the mean
absolute quarter-car output over the segment's samples. -/
def iriOf (xs : List ℚ) : ℚ := iriScale * meanAbs xs

/-- Does a sample fall inside the half-open distance window `[a, b)`? -/
def sampleInSeg (a b : ℚ) (s : DSample) : Bool :=
  decide (a ≤ s.distance_m ∧ s.distance_m < b)

/-- Modelled from the spec: build the `i`-th segment of a trip —
`distance_start`/`distance_end` bound the segment exactly at multiples of
`L` (capped at `D`), `iri_value` aggregates the quarter-car output of the
samples in the window, `mean_speed` is the arithmetic mean of reported
speed. -/
def mkSegment (L D : ℚ) (samples : List DSample) (i : ℕ) : Segment :=
  let a := segStart L i
  let b := segEnd L D i
  let inSeg := samples.filter (sampleInSeg a b)
  { segment_id := i
    distance_start := a
    distance_end := b
    iri_value := iriOf (inSeg.map DSample.filtered)
    mean_speed := (inSeg.map DSample.speed).sum / (inSeg.length : ℚ) }

/-- Modelled from the spec: the Segmenter (backend
`services/iri_service.py`, absent from the snapshot) — walks the
distance-tagged filtered series and closes a segment at every multiple of
`segment_length_m`, retaining the final partial segment. -/
def segmenter (L : ℚ) (samples : List DSample) : List Segment :=
  let D := totalDistance samples
  (List.range (numSegments L D)).map (mkSegment L D samples)

/-- The frontend's total-distance statistic
(`IRICalculator.jsx`: `segments[segments.length - 1].distance_end`). -/
def totalDistanceStat (segs : List Segment) : ℚ :=
  match segs.getLast? with
  | none => 0
  | some s => s.distance_end

/-! ## Distance Integrator (spec §4.3), modelled from the spec -/

/-- Modelled from the spec: negative or implausible instantaneous speeds
are clamped to zero rather than producing negative distance deltas. -/
def clampSpeed (v : ℚ) : ℚ := max 0 v

/-- Modelled from the spec: trapezoidal distance increment between two
consecutive (clamped) speed readings over one uniform sample interval. -/
def trapezoidStep (dt u v : ℚ) : ℚ := (clampSpeed u + clampSpeed v) / 2 * dt

/-- Cumulative-distance tail: given the distance `d` accumulated so far
and the previous speed reading `u`, tag the remaining speed readings. -/
def integrateFrom (dt : ℚ) : ℚ → ℚ → List ℚ → List ℚ
  | d, _, [] => [d]
  | d, u, v :: vs => d :: integrateFrom dt (d + trapezoidStep dt u v) v vs

/-- Modelled from the spec: the Distance Integrator — one cumulative
`distance_m` per speed reading, starting at 0, accumulated trapezoidally
with clamping. -/
def distances (dt : ℚ) : List ℚ → List ℚ
  | [] => []
  | v :: vs => integrateFrom dt 0 v vs

/-! ## API service wrappers (from `services/api.js`, src/unnamed/part_010
and part_011) and the backend cached-only lookup (spec §4.6) -/

/-- Outcome of an HTTP request as seen by the frontend service layer:
either a decoded body or an error with an HTTP status and a detail
string. -/
inductive ApiResponse (α : Type) where
  | ok : α → ApiResponse α
  | httpError : ℕ → String → ApiResponse α
deriving DecidableEq, Repr

/-- What a `getCachedIRI` call ends up doing: serve the cached body,
fall back to a full `computeIRI` computation, or surface a failure to the
caller. -/
inductive CallOutcome (α : Type) where
  | served : α → CallOutcome α
  | computed : α → CallOutcome α
  | failed : String → CallOutcome α
deriving DecidableEq, Repr

/-- Modelled from the spec: the backend `/iri/cached/{filename}` endpoint
(read-through cached-only lookup).  It consults only the cache and fails
with `CacheMissError` (HTTP 404) rather than computing — it takes no
compute function at all. -/
def cachedLookup {α : Type} (cache : String → Option α) (filename : String) :
    ApiResponse α :=
  match cache filename with
  | some r => ApiResponse.ok r
  | none => ApiResponse.httpError 404 "CacheMissError"

/-- `fileService.getCachedIRI` (src/unnamed/part_010, lines 153–167): on
success return the data; on a 404 fall back to `computeIRI`; on any other
error return the failure object `{success: false, message: detail}`.
`computeResult` stands for the value `computeIRI` would produce. -/
def fileServiceGetCachedIRI {α : Type} (resp : ApiResponse α)
    (computeResult : α) : CallOutcome α :=
  match resp with
  | ApiResponse.ok d => CallOutcome.served d
  | ApiResponse.httpError status detail =>
      if status = 404 then CallOutcome.computed computeResult
      else CallOutcome.failed detail

/-- `ApiService.getCachedIRI` (src/unnamed/part_011, lines 503–520): on
success return the data; on a 404 fall back to `computeIRI`; on any other
error throw `Error(detail)`. -/
def apiServiceGetCachedIRI {α : Type} (resp : ApiResponse α)
    (computeResult : α) : CallOutcome α :=
  match resp with
  | ApiResponse.ok d => CallOutcome.served d
  | ApiResponse.httpError status detail =>
      if status = 404 then CallOutcome.computed computeResult
      else CallOutcome.failed detail

/-! ## Result Cache, sequential view (spec §4.6), modelled from the spec -/

/-- The typed failures of Validator, Resampler and Distance Integrator
(spec §7).  `CacheMissError` is not among them — it is a control-flow
signal of the read-through path, not a pipeline fault. -/
inductive PipelineError where
  | schemaError : PipelineError
  | emptySeriesError : PipelineError
  | rangeError : PipelineError
  | insufficientSamplesError : PipelineError
  | missingSpatialReferenceError : PipelineError
deriving DecidableEq, Repr

/-- Fingerprint-indexed association list of cached results (entries never
mutate; they are only created). -/
def cacheLookup {α : Type} : List (String × α) → String → Option α
  | [], _ => none
  | (k, v) :: rest, fp => if k = fp then some v else cacheLookup rest fp

/-- The Result Cache's store. -/
structure CacheState (α : Type) where
  entries : List (String × α)
deriving DecidableEq, Repr

/-- Modelled from the spec: `get_or_compute(fingerprint, config,
compute_fn)` — serve a hit without computing; on a miss run the compute
function once, cache a success, and propagate a failure without caching
it.  The third component counts invocations of the compute function. -/
def getOrCompute {α : Type} (c : CacheState α) (fp : String)
    (f : Unit → Except PipelineError α) :
    Except PipelineError α × CacheState α × ℕ :=
  match cacheLookup c.entries fp with
  | some r => (Except.ok r, c, 0)
  | none =>
      match f () with
      | Except.ok r => (Except.ok r, ⟨(fp, r) :: c.entries⟩, 1)
      | Except.error e => (Except.error e, c, 1)

/-! ## Result Cache, concurrent view (spec §4.6, §5), modelled from the
spec: a labelled transition system for the single-flight mechanism -/

/-- State of the single-flight cache: the populated entries plus the set
of fingerprints whose computation is currently in flight. -/
structure FlightState (α : Type) where
  cache : List (String × α)
  inflight : List String
deriving DecidableEq, Repr

/-- Observable events of the single-flight cache: `invoke fp` — a caller
misses and starts the (unique) computation for `fp`; `join fp` — a caller
awaits an in-flight computation instead of starting its own; `hit fp r` —
a caller is served `r` from the cache; `complete fp r` — the in-flight
computation finishes with `r` and populates the cache. -/
inductive FlightEvent (α : Type) where
  | invoke : String → FlightEvent α
  | join : String → FlightEvent α
  | hit : String → α → FlightEvent α
  | complete : String → α → FlightEvent α
deriving DecidableEq, Repr

/-- Modelled from the spec: one step of the single-flight cache.  A
computation may start only when the fingerprint is neither cached nor in
flight; concurrent callers for an in-flight fingerprint join it; cached
fingerprints are served directly; a completion moves the fingerprint from
the in-flight set into the cache. -/
inductive Step {α : Type} : FlightState α → FlightEvent α → FlightState α → Prop where
  | invoke (s : FlightState α) (fp : String) :
      cacheLookup s.cache fp = none → fp ∉ s.inflight →
      Step s (FlightEvent.invoke fp) ⟨s.cache, fp :: s.inflight⟩
  | join (s : FlightState α) (fp : String) :
      fp ∈ s.inflight → Step s (FlightEvent.join fp) s
  | hit (s : FlightState α) (fp : String) (r : α) :
      cacheLookup s.cache fp = some r → Step s (FlightEvent.hit fp r) s
  | complete (s : FlightState α) (fp : String) (r : α) :
      fp ∈ s.inflight →
      Step s (FlightEvent.complete fp r) ⟨(fp, r) :: s.cache, s.inflight.erase fp⟩

/-- A finite execution of the single-flight cache. -/
inductive Trace {α : Type} : FlightState α → List (FlightEvent α) → FlightState α → Prop where
  | nil (s : FlightState α) : Trace s [] s
  | cons {s s₁ s₂ : FlightState α} {e : FlightEvent α} {es : List (FlightEvent α)} :
      Step s e s₁ → Trace s₁ es s₂ → Trace s (e :: es) s₂

/-- Number of compute-function invocations for `fp` in an event list. -/
def countInvoke {α : Type} (fp : String) : List (FlightEvent α) → ℕ
  | [] => 0
  | FlightEvent.invoke g :: es =>
      (if g = fp then 1 else 0) + countInvoke fp es
  | _ :: es => countInvoke fp es

/-- Is this event a caller's request for `fp` (a call to `get_or_compute`
classified by how it was served)? -/
def isRequest {α : Type} (fp : String) : FlightEvent α → Bool
  | FlightEvent.invoke g => g = fp
  | FlightEvent.join g => g = fp
  | FlightEvent.hit g _ => g = fp
  | FlightEvent.complete _ _ => false

/-- Number of caller requests for `fp` in an event list. -/
def countRequests {α : Type} (fp : String) (es : List (FlightEvent α)) : ℕ :=
  (es.filter (isRequest fp)).length

/-- The results delivered for `fp` in an event list: cache hits and the
completion value handed to all waiters. -/
def servedValues {α : Type} (fp : String) : List (FlightEvent α) → List α
  | [] => []
  | FlightEvent.hit g r :: es =>
      if g = fp then r :: servedValues fp es else servedValues fp es
  | FlightEvent.complete g r :: es =>
      if g = fp then r :: servedValues fp es else servedValues fp es
  | _ :: es => servedValues fp es

/-- The fingerprint an event concerns. -/
def eventKey {α : Type} : FlightEvent α → String
  | FlightEvent.invoke g => g
  | FlightEvent.join g => g
  | FlightEvent.hit g _ => g
  | FlightEvent.complete g _ => g

/-- Enabledness of an event in a state (its `Step` side conditions). -/
def enabledIn {α : Type} (s : FlightState α) : FlightEvent α → Prop
  | FlightEvent.invoke g => cacheLookup s.cache g = none ∧ g ∉ s.inflight
  | FlightEvent.join g => g ∈ s.inflight
  | FlightEvent.hit g r => cacheLookup s.cache g = some r
  | FlightEvent.complete g _ => g ∈ s.inflight

/-- The single-flight cache knows nothing about `fp`: not cached, not in
flight. -/
def FreshFor {α : Type} (s : FlightState α) (fp : String) : Prop :=
  cacheLookup s.cache fp = none ∧ fp ∉ s.inflight

/-! ## Quality classification (from `IRICalculator.jsx` and the map view
in src/unnamed/part_008) -/

/-- The four road-quality classes of the spec's IRI legend. -/
inductive Quality where
  | good : Quality
  | fair : Quality
  | poor : Quality
  | bad : Quality
deriving DecidableEq, Repr

/-- Specification-side classification: Good iff `iri ≤ 3`, Fair iff
`3 < iri ≤ 5`, Poor iff `5 < iri ≤ 7`, Bad otherwise.  Stated from the
claim's words for the refinement comparison. -/
def classifyIri (iri : ℚ) : Quality :=
  if iri ≤ 3 then Quality.good
  else if iri ≤ 5 then Quality.fair
  else if iri ≤ 7 then Quality.poor
  else Quality.bad

/-- The label each quality class is displayed as. -/
def qualityLabel : Quality → String
  | Quality.good => "Good"
  | Quality.fair => "Fair"
  | Quality.poor => "Poor"
  | Quality.bad => "Bad"

/-- The Tailwind text-colour class used for each quality class
(green/yellow/orange/red). -/
def qualityTextClass : Quality → String
  | Quality.good => "text-green-600"
  | Quality.fair => "text-yellow-400"
  | Quality.poor => "text-orange-500"
  | Quality.bad => "text-red-600"

/-- The hex colour used for each quality class — the same four colours
(`#16a34a` is green-600, `#facc15` yellow-400, `#f97316` orange-500,
`#dc2626` red-600). -/
def qualityHex : Quality → String
  | Quality.good => "#16a34a"
  | Quality.fair => "#facc15"
  | Quality.poor => "#f97316"
  | Quality.bad => "#dc2626"

/-- `getQualityColor` from `IRICalculator.jsx` (lines 89–94). -/
def getQualityColor (iri : ℚ) : String :=
  if iri ≤ 3 then "text-green-600"
  else if iri ≤ 5 then "text-yellow-400"
  else if iri ≤ 7 then "text-orange-500"
  else "text-red-600"

/-- `getQualityLabel` from `IRICalculator.jsx` (lines 96–101). -/
def getQualityLabel (iri : ℚ) : String :=
  if iri ≤ 3 then "Good"
  else if iri ≤ 5 then "Fair"
  else if iri ≤ 7 then "Poor"
  else "Bad"

/-- `getIriColor` from the map view, src/unnamed/part_008 (lines 80–85). -/
def getIriColor (iri : ℚ) : String :=
  if iri ≤ 3 then "#16a34a"
  else if iri ≤ 5 then "#facc15"
  else if iri ≤ 7 then "#f97316"
  else "#dc2626"

/-- The map tooltip's quality ternary, src/unnamed/part_008 (lines
131–135): `iri ≤ 3 ? Good : iri ≤ 5 ? Fair : iri ≤ 7 ? Poor : Bad`. -/
def tooltipQuality (iri : ℚ) : String :=
  if iri ≤ 3 then "Good"
  else if iri ≤ 5 then "Fair"
  else if iri ≤ 7 then "Poor"
  else "Bad"

/-! ## Zustand store (from `client/src/store/useAppStore.js`) -/

/-- The per-file summary statistics stored with an IRI file. -/
structure IriStats where
  averageIri : ℚ
  maxIri : ℚ
  avgSpeed : ℚ
  totalDistance : ℚ
  totalSegments : ℕ
deriving DecidableEq, Repr

/-- An entry of `iriFiles`:
`{id, filename, segments, stats, visible, color}`. -/
structure IriFile where
  id : ℚ
  filename : String
  segments : List Segment
  stats : IriStats
  visible : Bool
  color : String
deriving DecidableEq, Repr

/-- An entry of the pothole/vehicle/pavement file lists:
`{id, filename, visible}`. -/
structure DataFile where
  id : ℚ
  filename : String
  visible : Bool
deriving DecidableEq, Repr

/-- The `activeLayers` UI flags. -/
structure ActiveLayers where
  vehicles : Bool
  potholes : Bool
  pavement : Bool
  iri : Bool
deriving DecidableEq, Repr

/-- The Zustand store state of `useAppStore.js`: map data, file lists and
UI flags.  Vehicles/potholes/pavement rows carry the fields the map
reads. -/
structure AppStore where
  vehicles : List (ℚ × ℚ × String)
  potholes : List (ℚ × ℚ × String)
  pavement : List (List (ℚ × ℚ) × String)
  iriFiles : List IriFile
  potholeFiles : List DataFile
  vehicleFiles : List DataFile
  pavementFiles : List DataFile
  activeLayers : ActiveLayers
deriving DecidableEq, Repr

/-- `toggleIriFile` from `useAppStore.js` (lines 33–35): map over
`iriFiles`, flipping `visible` on entries whose `id` matches. -/
def toggleIriFile (id : ℚ) (s : AppStore) : AppStore :=
  { s with
    iriFiles := s.iriFiles.map fun f =>
      if f.id = id then { f with visible := !f.visible } else f }

/-! ## Concrete inputs used by the witnesses -/

/-- A two-sample 50 m demo trip. -/
def demoSamples : List DSample := [⟨0, 1, 5⟩, ⟨50, -2, 5⟩]

/-- The single segment the demo trip yields with `L = 100`. -/
def demoSegment : Segment := ⟨0, 0, 50, 1000, 5⟩

/-- A demo single-flight schedule: two concurrent callers for the same
fingerprint — the first invokes the computation, the second joins it, the
computation completes with 7, and a later caller hits the cache. -/
def demoEvents : List (FlightEvent ℕ) :=
  [FlightEvent.invoke "f", FlightEvent.join "f",
   FlightEvent.complete "f" 7, FlightEvent.hit "f" 7]

/-- A one-file demo store state. -/
def demoStore : AppStore :=
  { vehicles := []
    potholes := []
    pavement := []
    iriFiles := [⟨1, "a.csv", [], ⟨0, 0, 0, 0, 0⟩, true, "#ff0000"⟩]
    potholeFiles := [⟨2, "p.csv", true⟩]
    vehicleFiles := []
    pavementFiles := []
    activeLayers := ⟨true, true, true, true⟩ }

/-! # Theorems -/

/-! ## Segmenter lemmas -/

theorem totalDistanceStat_eq (segs : List Segment) (s : Segment)
    (h : segs.getLast? = some s) : totalDistanceStat segs = s.distance_end := by
  simp [totalDistanceStat, h]

theorem segmenter_length (L : ℚ) (samples : List DSample) :
    (segmenter L samples).length = numSegments L (totalDistance samples) := by
  simp [segmenter]

theorem segmenter_getElem? (L : ℚ) (samples : List DSample) (i : ℕ)
    (h : i < numSegments L (totalDistance samples)) :
    (segmenter L samples)[i]? = some (mkSegment L (totalDistance samples) samples i) := by
  simp [segmenter, List.getElem?_map, List.getElem?_range h]

theorem mul_lt_of_lt_numSegments (L D : ℚ) (i : ℕ) (hL : 0 < L)
    (hi : i < numSegments L D) : (i : ℚ) * L < D := by
  have h : (i : ℚ) < D / L := Nat.lt_ceil.mp hi
  exact (lt_div_iff₀ hL).mp h

theorem le_numSegments_mul (L D : ℚ) (hL : 0 < L) :
    D ≤ (numSegments L D : ℚ) * L :=
  (div_le_iff₀ hL).mp (Nat.le_ceil _)

theorem sum_range_map_sub (f : ℕ → ℚ) (n : ℕ) :
    ((List.range n).map (fun i => f (i + 1) - f i)).sum = f n - f 0 := by
  induction n with
  | zero => simp
  | succ m ih =>
      rw [List.range_succ, List.map_append, List.sum_append, ih]
      simp only [List.map_cons, List.map_nil, List.sum_cons, List.sum_nil]
      ring

/-- C1: the segments returned by a successful IRI computation partition
the distance axis exactly: the first segment starts at distance 0,
consecutive segments are contiguous (`distance_end` of one equals
`distance_start` of the next, hence non-overlapping), the lengths
`distance_end - distance_start` sum to the total trip distance `D`, and
the last segment's `distance_end` (the value the frontend reads as the
total distance) equals `D`. -/
theorem segmenter_partitions_distance (L : ℚ) (samples : List DSample)
    (hL : 0 < L) (hD : 0 < totalDistance samples) :
    ((segmenter L samples)[0]?).map Segment.distance_start = some 0 ∧
    (∀ i : ℕ, i + 1 < (segmenter L samples).length →
      ((segmenter L samples)[i]?).map Segment.distance_end =
        ((segmenter L samples)[i + 1]?).map Segment.distance_start) ∧
    ((segmenter L samples).map (fun s => s.distance_end - s.distance_start)).sum
        = totalDistance samples ∧
    totalDistanceStat (segmenter L samples) = totalDistance samples := by
  set D := totalDistance samples with hDdef
  have hn : 0 < numSegments L D := Nat.ceil_pos.mpr (div_pos hD hL)
  have hDle : D ≤ (numSegments L D : ℚ) * L := le_numSegments_mul L D hL
  refine ⟨?_, ?_, ?_, ?_⟩
  · rw [segmenter_getElem? L samples 0 hn]
    simp [mkSegment, segStart]
  · intro i hi
    rw [segmenter_length] at hi
    have hi1 : i < numSegments L D := Nat.lt_of_succ_lt hi
    rw [segmenter_getElem? L samples i hi1, segmenter_getElem? L samples (i + 1) hi]
    have hmul : ((i : ℚ) + 1) * L < D := by
      have := mul_lt_of_lt_numSegments L D (i + 1) hL hi
      push_cast at this
      exact this
    simp [mkSegment, segEnd, segStart, min_eq_left hmul.le]
  · have hmap : (segmenter L samples).map (fun s => s.distance_end - s.distance_start)
        = (List.range (numSegments L D)).map
            (fun i => min (((i + 1 : ℕ) : ℚ) * L) D - min ((i : ℚ) * L) D) := by
      simp only [segmenter, List.map_map]
      apply List.map_congr_left
      intro i hi
      have hi' : i < numSegments L D := List.mem_range.mp hi
      have h1 : (i : ℚ) * L < D := mul_lt_of_lt_numSegments L D i hL hi'
      simp [Function.comp, mkSegment, segEnd, segStart, min_eq_left h1.le]
    rw [hmap, sum_range_map_sub (fun j : ℕ => min ((j : ℚ) * L) D) (numSegments L D)]
    have hbn : min ((numSegments L D : ℚ) * L) D = D := min_eq_right hDle
    have hb0 : min (((0 : ℕ) : ℚ) * L) D = 0 := by
      simp [min_eq_left hD.le]
    rw [hbn, hb0, sub_zero]
  · obtain ⟨m, hm⟩ : ∃ m, numSegments L D = m + 1 :=
      ⟨numSegments L D - 1, (Nat.succ_pred_eq_of_pos hn).symm⟩
    have hmlt : m < numSegments L D := by omega
    have hlast : (segmenter L samples).getLast? = (segmenter L samples)[m]? := by
      rw [List.getLast?_eq_getElem?, segmenter_length, ← hDdef, hm]
      simp
    rw [segmenter_getElem? L samples m hmlt] at hlast
    rw [totalDistanceStat_eq _ _ hlast]
    have hmin : D ≤ ((m : ℚ) + 1) * L := by
      have h := hDle
      rw [hm] at h
      push_cast at h
      exact h
    simp [mkSegment, segEnd, min_eq_right hmin]

/-- Witness for C1 at a concrete trip: two samples spanning 50 m with a
100 m segment length; the segment lengths sum to the total distance. -/
theorem segmenter_partitions_distance_witness :
    ((segmenter 100 demoSamples).map
        (fun s => s.distance_end - s.distance_start)).sum
      = totalDistance demoSamples :=
  (segmenter_partitions_distance 100 demoSamples (by norm_num)
    (by norm_num [totalDistance, demoSamples])).2.2.1

/-- C2: every segment produced by the Segmenter carries a non-negative
`iri_value` (the calibration scale and the mean absolute aggregation are
both non-negative). -/
theorem segmenter_iri_nonneg (L : ℚ) (samples : List DSample) :
    ∀ seg ∈ segmenter L samples, 0 ≤ seg.iri_value := by
  intro seg hseg
  simp only [segmenter, List.mem_map] at hseg
  obtain ⟨i, _, rfl⟩ := hseg
  simp only [mkSegment, iriOf, meanAbs]
  apply mul_nonneg (by norm_num [iriScale])
  apply div_nonneg
  · apply List.sum_nonneg
    intro x hx
    simp only [List.mem_map] at hx
    obtain ⟨y, _, rfl⟩ := hx
    exact abs_nonneg y
  · exact_mod_cast Nat.zero_le _

theorem demo_numSegments : numSegments 100 50 = 1 := by
  have h1 : 0 < numSegments 100 (50 : ℚ) := Nat.ceil_pos.mpr (by norm_num)
  have h2 : numSegments 100 (50 : ℚ) ≤ 1 := Nat.ceil_le.mpr (by norm_num)
  omega

theorem demo_totalDistance : totalDistance demoSamples = 50 := by
  simp [totalDistance, demoSamples]

theorem demo_segmenter : segmenter 100 demoSamples = [demoSegment] := by
  simp only [segmenter, demo_totalDistance, demo_numSegments, List.range_succ, List.range_zero,
    List.nil_append, List.map_cons, List.map_nil]
  refine congrArg (fun s => [s]) ?_
  simp only [mkSegment, segStart, segEnd, demoSamples, demoSegment, sampleInSeg,
    iriOf, meanAbs, iriScale, List.filter]
  norm_num

/-- Witness for C2: the demo trip's single segment, IRI 1000 ≥ 0. -/
theorem segmenter_iri_nonneg_witness : 0 ≤ demoSegment.iri_value :=
  segmenter_iri_nonneg 100 demoSamples demoSegment
    (by rw [demo_segmenter]; exact List.mem_singleton.mpr rfl)

/-- C5: a trip strictly shorter than one segment length yields exactly one
segment, spanning the whole trip (`distance_start = 0`,
`distance_end = totalDistance`). -/
theorem segmenter_short_trip (L : ℚ) (samples : List DSample)
    (hL : 0 < L) (hD : 0 < totalDistance samples)
    (hDL : totalDistance samples < L) :
    (segmenter L samples).map (fun s => (s.distance_start, s.distance_end))
      = [(0, totalDistance samples)] := by
  set D := totalDistance samples with hDdef
  have hn : numSegments L D = 1 := by
    have h1 : 0 < numSegments L D := Nat.ceil_pos.mpr (div_pos hD hL)
    have h2 : numSegments L D ≤ 1 :=
      Nat.ceil_le.mpr (le_of_lt ((div_lt_one hL).mpr hDL))
    omega
  simp only [segmenter, ← hDdef, hn, List.range_succ, List.range_zero,
    List.nil_append, List.map_cons, List.map_nil]
  simp [mkSegment, segStart, segEnd, min_eq_right hDL.le]

/-- Witness for C5 at the concrete 50 m demo trip with 100 m segments. -/
theorem segmenter_short_trip_witness :
    (segmenter 100 demoSamples).map
        (fun s => (s.distance_start, s.distance_end))
      = [(0, totalDistance demoSamples)] :=
  segmenter_short_trip 100 demoSamples (by norm_num)
    (by norm_num [totalDistance, demoSamples])
    (by norm_num [totalDistance, demoSamples])

/-! ## Distance Integrator lemmas -/

theorem trapezoidStep_nonneg (dt u v : ℚ) (hdt : 0 ≤ dt) :
    0 ≤ trapezoidStep dt u v := by
  apply mul_nonneg _ hdt
  apply div_nonneg _ (by norm_num)
  have h1 : (0 : ℚ) ≤ clampSpeed u := le_max_left 0 u
  have h2 : (0 : ℚ) ≤ clampSpeed v := le_max_left 0 v
  linarith

theorem integrateFrom_head (dt d u : ℚ) (vs : List ℚ) :
    (integrateFrom dt d u vs).head? = some d := by
  cases vs <;> simp [integrateFrom]

theorem integrateFrom_length (dt : ℚ) :
    ∀ (vs : List ℚ) (d u : ℚ), (integrateFrom dt d u vs).length = vs.length + 1
  | [], _, _ => by simp [integrateFrom]
  | v :: vs, d, u => by
      simp [integrateFrom, integrateFrom_length dt vs]

theorem integrateFrom_chain (dt : ℚ) (hdt : 0 ≤ dt) :
    ∀ (vs : List ℚ) (d u : ℚ), (integrateFrom dt d u vs).Chain' (· ≤ ·)
  | [], d, u => by simp [integrateFrom]
  | v :: vs, d, u => by
      simp only [integrateFrom]
      rw [List.chain'_cons']
      refine ⟨?_, integrateFrom_chain dt hdt vs _ v⟩
      intro b hb
      rw [integrateFrom_head] at hb
      cases hb
      exact le_add_of_nonneg_right (trapezoidStep_nonneg dt u v hdt)

/-- C7: the Distance Integrator tags every speed reading with a cumulative
distance; the distance sequence starts at 0 and is monotonically
non-decreasing for all inputs — including negative or implausible
instantaneous speeds, which are clamped to zero rather than producing
negative distance deltas. -/
theorem distances_monotone_from_zero (dt : ℚ) (speeds : List ℚ) (hdt : 0 ≤ dt) :
    (distances dt speeds).length = speeds.length ∧
    (speeds ≠ [] → (distances dt speeds).head? = some 0) ∧
    (distances dt speeds).Pairwise (· ≤ ·) := by
  refine ⟨?_, ?_, ?_⟩
  · cases speeds with
    | nil => simp [distances]
    | cons v vs => simp [distances, integrateFrom_length dt vs]
  · intro h
    cases speeds with
    | nil => exact absurd rfl h
    | cons v vs => simp [distances, integrateFrom_head]
  · rw [← List.chain'_iff_pairwise]
    cases speeds with
    | nil => simp [distances]
    | cons v vs => exact integrateFrom_chain dt hdt vs 0 v

/-- Witness for C7: a trip with a negative speed reading still yields a
monotonically non-decreasing distance sequence. -/
theorem distances_monotone_from_zero_witness :
    (distances 1 [-2, 3]).Pairwise (· ≤ ·) :=
  (distances_monotone_from_zero 1 [-2, 3] (by norm_num)).2.2

/-! ## Cached-only read path (C3) -/

/-- C3: the cached-only read path fails with `CacheMissError` (HTTP 404)
rather than computing when no cached result exists, and the frontend
caller (`fileService.getCachedIRI`, with `ApiService.getCachedIRI`
behaving identically) falls back to `computeIRI` exactly on that miss
signal: a cache hit is served directly, a 404 and only a 404 triggers the
computation, and every non-miss failure is surfaced without computing. -/
theorem cachedOnly_fallback_exactly_on_miss {α : Type} (cache : String → Option α)
    (filename : String) (computeResult : α) :
    (∀ r, cache filename = some r →
      fileServiceGetCachedIRI (cachedLookup cache filename) computeResult
        = CallOutcome.served r) ∧
    (cache filename = none →
      fileServiceGetCachedIRI (cachedLookup cache filename) computeResult
        = CallOutcome.computed computeResult) ∧
    (∀ resp : ApiResponse α,
      ((∃ y, fileServiceGetCachedIRI resp computeResult = CallOutcome.computed y) ↔
        ∃ detail, resp = ApiResponse.httpError 404 detail)) ∧
    (∀ status detail, status ≠ 404 →
      fileServiceGetCachedIRI (ApiResponse.httpError status detail) computeResult
        = CallOutcome.failed detail) ∧
    (∀ resp : ApiResponse α,
      apiServiceGetCachedIRI resp computeResult
        = fileServiceGetCachedIRI resp computeResult) := by
  refine ⟨?_, ?_, ?_, ?_, ?_⟩
  · intro r h
    simp [cachedLookup, h, fileServiceGetCachedIRI]
  · intro h
    simp [cachedLookup, h, fileServiceGetCachedIRI]
  · intro resp
    constructor
    · rintro ⟨y, hy⟩
      cases resp with
      | ok d => simp [fileServiceGetCachedIRI] at hy
      | httpError status detail =>
          by_cases h : status = 404
          · exact ⟨detail, by rw [h]⟩
          · simp [fileServiceGetCachedIRI, h] at hy
    · rintro ⟨detail, rfl⟩
      exact ⟨computeResult, by simp [fileServiceGetCachedIRI]⟩
  · intro status detail h
    simp [fileServiceGetCachedIRI, h]
  · intro resp
    cases resp <;> rfl

/-- Witness for C3: an empty cache misses, and the caller falls back to
the computation. -/
theorem cachedOnly_fallback_witness :
    fileServiceGetCachedIRI (cachedLookup (fun _ => (none : Option ℕ)) "trip.csv") 7
      = CallOutcome.computed 7 :=
  (cachedOnly_fallback_exactly_on_miss (fun _ => (none : Option ℕ)) "trip.csv" 7).2.1 rfl

/-! ## Result Cache, sequential properties (C4, C6) -/

/-- C4: the computation is deterministic — the whole pipeline is embedded
as a pure function of `(series, config)`, so two runs agree
definitionally — and re-running through the cache is idempotent: after
any successful call, a second `get_or_compute` with the same fingerprint
returns the same result and the same cache state with zero further
invocations of the compute function. -/
theorem getOrCompute_idempotent {α : Type} (c : CacheState α) (fp : String)
    (f : Unit → Except PipelineError α) (r : α) (hf : f () = Except.ok r) :
    (getOrCompute c fp f).2.2 ≤ 1 ∧
    (getOrCompute (getOrCompute c fp f).2.1 fp f).1 = (getOrCompute c fp f).1 ∧
    (getOrCompute (getOrCompute c fp f).2.1 fp f).2.2 = 0 ∧
    (getOrCompute (getOrCompute c fp f).2.1 fp f).2.1 = (getOrCompute c fp f).2.1 := by
  cases h : cacheLookup c.entries fp with
  | some r0 => simp [getOrCompute, h]
  | none => simp [getOrCompute, h, hf, cacheLookup]

/-- Witness for C4: a fresh cache, one successful compute; the second call
does not invoke the compute function. -/
theorem getOrCompute_idempotent_witness :
    (getOrCompute (getOrCompute (CacheState.mk ([] : List (String × ℕ))) "trip.csv"
        (fun _ => Except.ok 4)).2.1 "trip.csv" (fun _ => Except.ok 4)).2.2 = 0 :=
  (getOrCompute_idempotent ⟨[]⟩ "trip.csv" (fun _ => Except.ok 4) 4 rfl).2.2.1

/-- C6: a pipeline failure (any of the typed Validator / Resampler /
Distance Integrator errors) is terminal — `get_or_compute` returns
exactly the typed error and no partial result, leaves the cache unchanged
(the failure is not cached), and a subsequent call with the same
fingerprint retries the computation (invocation count 1 again). -/
theorem pipeline_errors_terminal {α : Type} (c : CacheState α) (fp : String)
    (f : Unit → Except PipelineError α) (e : PipelineError)
    (hf : f () = Except.error e) (hmiss : cacheLookup c.entries fp = none) :
    getOrCompute c fp f = (Except.error e, c, 1) ∧
    getOrCompute (getOrCompute c fp f).2.1 fp f = (Except.error e, c, 1) := by
  have h1 : getOrCompute c fp f = (Except.error e, c, 1) := by
    simp [getOrCompute, hmiss, hf]
  exact ⟨h1, by rw [h1]; exact h1⟩

/-- Witness for C6: a schema error on an empty cache is returned as-is and
not cached. -/
theorem pipeline_errors_terminal_witness :
    getOrCompute (CacheState.mk ([] : List (String × ℕ))) "trip.csv"
        (fun _ => Except.error PipelineError.schemaError)
      = (Except.error PipelineError.schemaError, CacheState.mk [], 1) :=
  (pipeline_errors_terminal ⟨[]⟩ "trip.csv"
    (fun _ => Except.error PipelineError.schemaError)
    PipelineError.schemaError rfl rfl).1

/-! ## Quality classification agreement (C9) -/

/-- C9: the quality classification of the IRI Calculator page
(`getQualityLabel`/`getQualityColor`) and of the map view
(`getIriColor` and the tooltip ternary) agree for every IRI value: all
four factor through one classification — Good iff `iri ≤ 3`, Fair iff
`3 < iri ≤ 5`, Poor iff `5 < iri ≤ 7`, Bad iff `7 < iri` — with matching
green/yellow/orange/red colour assignments. -/
theorem quality_classifications_agree (iri : ℚ) :
    getQualityLabel iri = qualityLabel (classifyIri iri) ∧
    tooltipQuality iri = qualityLabel (classifyIri iri) ∧
    getQualityColor iri = qualityTextClass (classifyIri iri) ∧
    getIriColor iri = qualityHex (classifyIri iri) ∧
    (classifyIri iri = Quality.good ↔ iri ≤ 3) ∧
    (classifyIri iri = Quality.fair ↔ 3 < iri ∧ iri ≤ 5) ∧
    (classifyIri iri = Quality.poor ↔ 5 < iri ∧ iri ≤ 7) ∧
    (classifyIri iri = Quality.bad ↔ 7 < iri) := by
  unfold getQualityLabel tooltipQuality getQualityColor getIriColor classifyIri
  split_ifs with h3 h5 h7 <;>
    refine ⟨rfl, rfl, rfl, rfl, ?_, ?_, ?_, ?_⟩ <;>
    simp_all [qualityLabel, qualityTextClass, qualityHex] <;>
    first
      | linarith
      | (intro h; linarith)

/-- Witness for C9 at `iri = 4`: both pages classify it Fair. -/
theorem quality_classifications_agree_witness :
    tooltipQuality 4 = qualityLabel (classifyIri 4) :=
  (quality_classifications_agree 4).2.1

/-! ## Store frame property (C10) -/

/-- C10: `toggleIriFile id` flips only the `visible` flag of the
`iriFiles` entries whose `id` matches, preserving the list length and
order, every other field of every entry, and every other store field. -/
theorem toggleIriFile_frame (id : ℚ) (s : AppStore) :
    (toggleIriFile id s).iriFiles.length = s.iriFiles.length ∧
    (∀ i : ℕ,
      ((toggleIriFile id s).iriFiles[i]?).map IriFile.id
          = (s.iriFiles[i]?).map IriFile.id ∧
      ((toggleIriFile id s).iriFiles[i]?).map IriFile.filename
          = (s.iriFiles[i]?).map IriFile.filename ∧
      ((toggleIriFile id s).iriFiles[i]?).map IriFile.segments
          = (s.iriFiles[i]?).map IriFile.segments ∧
      ((toggleIriFile id s).iriFiles[i]?).map IriFile.stats
          = (s.iriFiles[i]?).map IriFile.stats ∧
      ((toggleIriFile id s).iriFiles[i]?).map IriFile.color
          = (s.iriFiles[i]?).map IriFile.color ∧
      ((toggleIriFile id s).iriFiles[i]?).map IriFile.visible
          = (s.iriFiles[i]?).map
              (fun f => if f.id = id then !f.visible else f.visible)) ∧
    (toggleIriFile id s).vehicles = s.vehicles ∧
    (toggleIriFile id s).potholes = s.potholes ∧
    (toggleIriFile id s).pavement = s.pavement ∧
    (toggleIriFile id s).potholeFiles = s.potholeFiles ∧
    (toggleIriFile id s).vehicleFiles = s.vehicleFiles ∧
    (toggleIriFile id s).pavementFiles = s.pavementFiles ∧
    (toggleIriFile id s).activeLayers = s.activeLayers := by
  refine ⟨by simp [toggleIriFile], ?_, rfl, rfl, rfl, rfl, rfl, rfl, rfl⟩
  intro i
  cases h : s.iriFiles[i]? with
  | none => simp [toggleIriFile, List.getElem?_map, h]
  | some f =>
      simp only [toggleIriFile, List.getElem?_map, h, Option.map_some']
      refine ⟨?_, ?_, ?_, ?_, ?_, ?_⟩ <;> split_ifs <;> rfl

/-- Witness for C10 at a concrete one-file store: toggling preserves the
`potholeFiles` list. -/
theorem toggleIriFile_frame_witness :
    (toggleIriFile 1 demoStore).potholeFiles = demoStore.potholeFiles :=
  (toggleIriFile_frame 1 demoStore).2.2.2.2.2.1

/-! ## Single-flight cache (C8) -/

theorem cacheLookup_cons_ne {α : Type} (k fp : String) (v : α)
    (l : List (String × α)) (h : k ≠ fp) :
    cacheLookup ((k, v) :: l) fp = cacheLookup l fp := by
  simp [cacheLookup, h]

theorem cacheLookup_cons_self {α : Type} (fp : String) (v : α)
    (l : List (String × α)) : cacheLookup ((fp, v) :: l) fp = some v := by
  simp [cacheLookup]

theorem step_nodup {α : Type} {s s' : FlightState α} {e : FlightEvent α}
    (hst : Step s e s') (hnd : s.inflight.Nodup) : s'.inflight.Nodup := by
  cases hst with
  | invoke _ h1 h2 => exact List.nodup_cons.mpr ⟨h2, hnd⟩
  | join _ _ => exact hnd
  | hit _ _ _ => exact hnd
  | complete _ _ _ => exact hnd.erase _

theorem trace_no_invoke_of_busy {α : Type} (fp : String) :
    ∀ {s s' : FlightState α} {es : List (FlightEvent α)}, Trace s es s' →
      (fp ∈ s.inflight ∨ (cacheLookup s.cache fp).isSome) →
      countInvoke fp es = 0 := by
  intro s s' es h
  induction h with
  | nil => intro _; rfl
  | cons hst htr ih =>
      intro hbusy
      cases hst with
      | invoke g h1 h2 =>
          have hg : g ≠ fp := by
            rintro rfl
            rcases hbusy with hm | hs
            · exact h2 hm
            · rw [h1] at hs; simp at hs
          simp only [countInvoke, if_neg hg, Nat.zero_add]
          apply ih
          rcases hbusy with hm | hs
          · exact Or.inl (List.mem_cons_of_mem g hm)
          · exact Or.inr hs
      | join g hg =>
          simp only [countInvoke]
          exact ih hbusy
      | hit g r hg =>
          simp only [countInvoke]
          exact ih hbusy
      | complete g r hg =>
          simp only [countInvoke]
          apply ih
          by_cases hgf : g = fp
          · subst hgf
            exact Or.inr (by rw [cacheLookup_cons_self]; rfl)
          · rcases hbusy with hm | hs
            · exact Or.inl ((List.mem_erase_of_ne (fun h => hgf h.symm)).mpr hm)
            · rw [cacheLookup_cons_ne g fp r _ hgf]
              exact Or.inr hs

theorem trace_invoke_le_one {α : Type} (fp : String) :
    ∀ {s s' : FlightState α} {es : List (FlightEvent α)}, Trace s es s' →
      cacheLookup s.cache fp = none → fp ∉ s.inflight →
      countInvoke fp es ≤ 1 := by
  intro s s' es h
  induction h with
  | nil => intro _ _; simp [countInvoke]
  | cons hst htr ih =>
      intro hfree hout
      cases hst with
      | invoke g h1 h2 =>
          by_cases hg : g = fp
          · subst hg
            have htail : countInvoke g _ = 0 :=
              trace_no_invoke_of_busy g htr (Or.inl (List.mem_cons_self g _))
            simp [countInvoke, htail]
          · simp only [countInvoke, if_neg hg, Nat.zero_add]
            apply ih hfree
            intro hm
            rcases List.mem_cons.mp hm with h | h
            · exact hg h.symm
            · exact hout h
      | join g hg =>
          simp only [countInvoke]
          exact ih hfree hout
      | hit g r hg =>
          simp only [countInvoke]
          exact ih hfree hout
      | complete g r hg =>
          have hgf : g ≠ fp := fun h => hout (h ▸ hg)
          simp only [countInvoke]
          apply ih
          · rw [cacheLookup_cons_ne g fp r _ hgf]
            exact hfree
          · exact fun hm => hout (List.mem_of_mem_erase hm)

theorem trace_invoke_pos_of_request {α : Type} (fp : String) :
    ∀ {s s' : FlightState α} {es : List (FlightEvent α)}, Trace s es s' →
      cacheLookup s.cache fp = none → fp ∉ s.inflight →
      0 < countRequests fp es → 0 < countInvoke fp es := by
  intro s s' es h
  induction h with
  | nil => intro _ _ hreq; simp [countRequests] at hreq
  | cons hst htr ih =>
      intro hfree hout hreq
      cases hst with
      | invoke g h1 h2 =>
          by_cases hg : g = fp
          · subst hg
            simp [countInvoke]
          · simp only [countInvoke, if_neg hg, Nat.zero_add]
            apply ih hfree
            · intro hm
              rcases List.mem_cons.mp hm with h | h
              · exact hg h.symm
              · exact hout h
            · simpa [countRequests, isRequest, List.filter, hg] using hreq
      | join g hg =>
          have hg' : g ≠ fp := fun h => hout (h ▸ hg)
          simp only [countInvoke]
          apply ih hfree hout
          simpa [countRequests, isRequest, List.filter, hg'] using hreq
      | hit g r hg =>
          have hg' : g ≠ fp := by
            rintro rfl
            rw [hfree] at hg
            exact Option.noConfusion hg
          simp only [countInvoke]
          apply ih hfree hout
          simpa [countRequests, isRequest, List.filter, hg'] using hreq
      | complete g r hg =>
          have hgf : g ≠ fp := fun h => hout (h ▸ hg)
          simp only [countInvoke]
          apply ih
          · rw [cacheLookup_cons_ne g fp r _ hgf]
            exact hfree
          · exact fun hm => hout (List.mem_of_mem_erase hm)
          · simpa [countRequests, isRequest, List.filter] using hreq

theorem trace_served_of_cached {α : Type} (fp : String) (r : α) :
    ∀ {s s' : FlightState α} {es : List (FlightEvent α)}, Trace s es s' →
      cacheLookup s.cache fp = some r → fp ∉ s.inflight →
      ∀ x ∈ servedValues fp es, x = r := by
  intro s s' es h
  induction h with
  | nil => intro _ _ x hx; simp [servedValues] at hx
  | cons hst htr ih =>
      intro hcache hout x hx
      cases hst with
      | invoke g h1 h2 =>
          have hg : g ≠ fp := by
            rintro rfl
            rw [hcache] at h1
            exact Option.noConfusion h1
          simp only [servedValues] at hx
          apply ih hcache _ x hx
          intro hm
          rcases List.mem_cons.mp hm with h | h
          · exact hg h.symm
          · exact hout h
      | join g hg =>
          simp only [servedValues] at hx
          exact ih hcache hout x hx
      | hit g y hg =>
          by_cases hgf : g = fp
          · subst hgf
            rw [hcache] at hg
            have hy : r = y := by injection hg
            simp only [servedValues, if_pos rfl] at hx
            rcases List.mem_cons.mp hx with h | h
            · rw [h, ← hy]
            · exact ih hcache hout x h
          · simp only [servedValues, if_neg hgf] at hx
            exact ih hcache hout x hx
      | complete g y hg =>
          have hgf : g ≠ fp := fun h => hout (h ▸ hg)
          simp only [servedValues, if_neg hgf] at hx
          apply ih _ _ x hx
          · rw [cacheLookup_cons_ne g fp y _ hgf]
            exact hcache
          · exact fun hm => hout (List.mem_of_mem_erase hm)

theorem trace_served_of_flying {α : Type} (fp : String) :
    ∀ {s s' : FlightState α} {es : List (FlightEvent α)}, Trace s es s' →
      cacheLookup s.cache fp = none → fp ∈ s.inflight → s.inflight.Nodup →
      ∀ x ∈ servedValues fp es, ∀ y ∈ servedValues fp es, x = y := by
  intro s s' es h
  induction h with
  | nil => intro _ _ _ x hx; simp [servedValues] at hx
  | cons hst htr ih =>
      intro hfree hin hnd x hx y hy
      cases hst with
      | invoke g h1 h2 =>
          have hg : g ≠ fp := fun h => h2 (h ▸ hin)
          simp only [servedValues] at hx hy
          exact ih hfree (List.mem_cons_of_mem g hin)
            (List.nodup_cons.mpr ⟨h2, hnd⟩) x hx y hy
      | join g hg =>
          simp only [servedValues] at hx hy
          exact ih hfree hin hnd x hx y hy
      | hit g z hg =>
          have hgf : g ≠ fp := by
            rintro rfl
            rw [hfree] at hg
            exact Option.noConfusion hg
          simp only [servedValues, if_neg hgf] at hx hy
          exact ih hfree hin hnd x hx y hy
      | complete g z hg =>
          by_cases hgf : g = fp
          · subst hgf
            have htail := trace_served_of_cached g z htr
              (cacheLookup_cons_self g z _) hnd.not_mem_erase
            simp only [servedValues, if_pos rfl] at hx hy
            have hx' : x = z := by
              rcases List.mem_cons.mp hx with h | h
              · exact h
              · exact htail x h
            have hy' : y = z := by
              rcases List.mem_cons.mp hy with h | h
              · exact h
              · exact htail y h
            rw [hx', hy']
          · simp only [servedValues, if_neg hgf] at hx hy
            apply ih _ _ _ x hx y hy
            · rw [cacheLookup_cons_ne g fp z _ hgf]
              exact hfree
            · exact (List.mem_erase_of_ne (fun h => hgf h.symm)).mpr hin
            · exact hnd.erase g

theorem trace_served_agree {α : Type} (fp : String) :
    ∀ {s s' : FlightState α} {es : List (FlightEvent α)}, Trace s es s' →
      cacheLookup s.cache fp = none → fp ∉ s.inflight → s.inflight.Nodup →
      ∀ x ∈ servedValues fp es, ∀ y ∈ servedValues fp es, x = y := by
  intro s s' es h
  induction h with
  | nil => intro _ _ _ x hx; simp [servedValues] at hx
  | cons hst htr ih =>
      intro hfree hout hnd x hx y hy
      cases hst with
      | invoke g h1 h2 =>
          by_cases hg : g = fp
          · subst hg
            simp only [servedValues] at hx hy
            exact trace_served_of_flying g htr hfree (List.mem_cons_self g _)
              (List.nodup_cons.mpr ⟨h2, hnd⟩) x hx y hy
          · simp only [servedValues] at hx hy
            apply ih hfree _ (List.nodup_cons.mpr ⟨h2, hnd⟩) x hx y hy
            intro hm
            rcases List.mem_cons.mp hm with h | h
            · exact hg h.symm
            · exact hout h
      | join g hg =>
          simp only [servedValues] at hx hy
          exact ih hfree hout hnd x hx y hy
      | hit g z hg =>
          have hgf : g ≠ fp := by
            rintro rfl
            rw [hfree] at hg
            exact Option.noConfusion hg
          simp only [servedValues, if_neg hgf] at hx hy
          exact ih hfree hout hnd x hx y hy
      | complete g z hg =>
          have hgf : g ≠ fp := fun h => hout (h ▸ hg)
          simp only [servedValues, if_neg hgf] at hx hy
          apply ih _ _ (hnd.erase g) x hx y hy
          · rw [cacheLookup_cons_ne g fp z _ hgf]
            exact hfree
          · exact fun hm => hout (List.mem_of_mem_erase hm)

theorem step_iff_enabledIn {α : Type} (s : FlightState α) (e : FlightEvent α) :
    (∃ s', Step s e s') ↔ enabledIn s e := by
  constructor
  · rintro ⟨s', hs⟩
    cases hs with
    | invoke _ h1 h2 => exact ⟨h1, h2⟩
    | join _ h => exact h
    | hit _ _ h => exact h
    | complete _ _ h => exact h
  · intro h
    cases e with
    | invoke g => exact ⟨_, Step.invoke s g h.1 h.2⟩
    | join g => exact ⟨s, Step.join s g h⟩
    | hit g r => exact ⟨s, Step.hit s g r h⟩
    | complete g r => exact ⟨_, Step.complete s g r h⟩

theorem other_key_enabled {α : Type} (cache : List (String × α))
    (inflight : List String) (fp : String) (r : α) (e : FlightEvent α)
    (hne : eventKey e ≠ fp) :
    (enabledIn (FlightState.mk cache (fp :: inflight)) e
      ↔ enabledIn (FlightState.mk cache inflight) e) ∧
    (enabledIn (FlightState.mk ((fp, r) :: cache) inflight) e
      ↔ enabledIn (FlightState.mk cache inflight) e) := by
  cases e with
  | invoke g =>
      simp only [eventKey] at hne
      constructor
      · simp [enabledIn, List.mem_cons, hne]
      · rw [enabledIn, enabledIn, cacheLookup_cons_ne fp g r cache (fun h => hne h.symm)]
  | join g =>
      simp only [eventKey] at hne
      constructor
      · simp [enabledIn, List.mem_cons, hne]
      · simp [enabledIn]
  | hit g z =>
      simp only [eventKey] at hne
      constructor
      · simp [enabledIn]
      · rw [enabledIn, enabledIn, cacheLookup_cons_ne fp g r cache (fun h => hne h.symm)]
  | complete g z =>
      simp only [eventKey] at hne
      constructor
      · simp [enabledIn, List.mem_cons, hne]
      · simp [enabledIn]

/-- C8: the single-flight property.  From a state in which a fingerprint
is neither cached nor in flight, any execution (any interleaving of
concurrent callers) invokes the compute function for that fingerprint at
most once — and exactly once as soon as at least one caller requests it —
every value delivered for the fingerprint (hits and the completion handed
to all joined waiters) is the same single result, and an in-flight
computation or cached entry for the fingerprint never changes which steps
of a different fingerprint are enabled (callers with distinct
fingerprints never block one another). -/
theorem single_flight {α : Type} (s₀ s₁ : FlightState α) (fp : String)
    (es : List (FlightEvent α)) (htr : Trace s₀ es s₁)
    (hfresh : FreshFor s₀ fp) (hnd : s₀.inflight.Nodup) :
    countInvoke fp es ≤ 1 ∧
    (0 < countRequests fp es → countInvoke fp es = 1) ∧
    (∀ x ∈ servedValues fp es, ∀ y ∈ servedValues fp es, x = y) ∧
    (∀ (e : FlightEvent α) (r : α), eventKey e ≠ fp →
      (enabledIn (FlightState.mk s₁.cache (fp :: s₁.inflight)) e
        ↔ enabledIn s₁ e) ∧
      (enabledIn (FlightState.mk ((fp, r) :: s₁.cache) s₁.inflight) e
        ↔ enabledIn s₁ e)) := by
  obtain ⟨hfree, hout⟩ := hfresh
  have h1 := trace_invoke_le_one fp htr hfree hout
  refine ⟨h1, ?_, trace_served_agree fp htr hfree hout hnd, ?_⟩
  · intro hreq
    have h2 := trace_invoke_pos_of_request fp htr hfree hout hreq
    omega
  · intro e r hne
    have h := other_key_enabled s₁.cache s₁.inflight fp r e hne
    exact h

theorem demoTrace :
    Trace (FlightState.mk ([] : List (String × ℕ)) []) demoEvents
      (FlightState.mk [("f", 7)] []) := by
  have h1 : Step (FlightState.mk ([] : List (String × ℕ)) [])
      (FlightEvent.invoke "f") ⟨[], ["f"]⟩ :=
    Step.invoke _ "f" rfl (by simp)
  have h2 : Step (FlightState.mk ([] : List (String × ℕ)) ["f"])
      (FlightEvent.join "f") ⟨[], ["f"]⟩ :=
    Step.join _ "f" (by simp)
  have h3 : Step (FlightState.mk ([] : List (String × ℕ)) ["f"])
      (FlightEvent.complete "f" 7) ⟨[("f", 7)], []⟩ := by
    have h := Step.complete (FlightState.mk ([] : List (String × ℕ)) ["f"])
      "f" 7 (by simp)
    simpa using h
  have h4 : Step (FlightState.mk ([("f", 7)] : List (String × ℕ)) [])
      (FlightEvent.hit "f" 7) ⟨[("f", 7)], []⟩ :=
    Step.hit _ "f" 7 (by simp [cacheLookup])
  exact Trace.cons h1 (Trace.cons h2 (Trace.cons h3 (Trace.cons h4 (Trace.nil _))))

/-- Witness for C8: a concrete interleaving of two concurrent callers and
one later cache hit performs exactly one invocation. -/
theorem single_flight_witness : countInvoke "f" demoEvents ≤ 1 :=
  (single_flight (FlightState.mk ([] : List (String × ℕ)) [])
    (FlightState.mk [("f", 7)] []) "f" demoEvents demoTrace
    ⟨rfl, by simp⟩ (by simp)).1

end DAAN
